import Mathlib

/-!
Shallow embedding of the `genai-tools` crate (files `src/traits.rs` and
`src/registry.rs`): the tool-invocation registry, its type-erasure layer and
its single/batch execution paths, together with proofs of the specified
properties.

Modelling conventions:
* `serde_json::Value` is modelled by the inductive `Json`; numbers are
  modelled as integers (`Int`), which suffices for every property below.
* `serde_json::to_string` on a `Value` is infallible (all map keys are
  strings), so it is modelled by the total function `Json.render`, which
  mirrors compact serde output including string escaping.
* Rust `async` functions are modelled by their eventual result: a tool body
  `async fn(P) -> Result<O, E>` becomes `P → Except E O`.  `try_join_all`
  over the per-call futures is modelled as order-preserving fail-fast
  sequencing (`ToolRegistry.execute_calls` below): the response list keeps
  the input order and the first error aborts the whole batch, which is the
  observable result-level behaviour of the combinator.
* The boundary error type `Box<dyn Error + Send + Sync>` exposes only a
  rendered message, and each failing program point of
  `ToolFunction::call_json` / `ToolRegistry::execute_call` produces its own
  error value.  It is therefore modelled by inductives (`InvokeError`,
  `ExecError`) tagging the producing program point (decode / handler /
  encode / not-found) and carrying the rendered message.
* `HashMap<String, Box<dyn ToolHandler>>` is modelled by an association
  list with HashMap semantics: `mapInsert` replaces the entry of an
  existing key, `mapRemove` removes it, iteration order is some unspecified
  order of the entries.
-/

/-- Model of `serde_json::Value`. -/
inductive Json where
  | null : Json
  | bool (b : Bool) : Json
  | num (n : Int) : Json
  | str (s : String) : Json
  | arr (elems : List Json) : Json
  | obj (fields : List (String × Json)) : Json

/-- Escaping of one character inside a JSON string literal, mirroring
serde_json compact output. -/
def jsonEscapeChar (c : Char) : String :=
  if c = '"' then "\\\""
  else if c = '\\' then "\\\\"
  else if c = '\n' then "\\n"
  else if c = '\r' then "\\r"
  else if c = '\t' then "\\t"
  else if c.toNat = 8 then "\\b"
  else if c.toNat = 12 then "\\f"
  else if c.toNat < 32 then
    "\\u00" ++ String.singleton (Nat.digitChar (c.toNat / 16))
            ++ String.singleton (Nat.digitChar (c.toNat % 16))
  else String.singleton c

/-- Serialization of a JSON string literal with quotes and escapes. -/
def jsonRenderString (s : String) : String :=
  "\"" ++ String.join (s.toList.map jsonEscapeChar) ++ "\""

mutual

/-- Model of `serde_json::to_string` on a `Value` (compact form); total
because serialization of a `Value` cannot fail. -/
def Json.render : Json → String
  | .null => "null"
  | .bool true => "true"
  | .bool false => "false"
  | .num n => toString n
  | .str s => jsonRenderString s
  | .arr elems => "[" ++ Json.renderArr elems ++ "]"
  | .obj fields => "\x7b" ++ Json.renderObj fields ++ "\x7d"

/-- Comma-separated rendering of array elements. -/
def Json.renderArr : List Json → String
  | [] => ""
  | [x] => Json.render x
  | x :: y :: rest => Json.render x ++ "," ++ Json.renderArr (y :: rest)

/-- Comma-separated rendering of object fields. -/
def Json.renderObj : List (String × Json) → String
  | [] => ""
  | [(k, v)] => jsonRenderString k ++ ":" ++ Json.render v
  | (k, v) :: kv :: rest =>
      jsonRenderString k ++ ":" ++ Json.render v ++ "," ++ Json.renderObj (kv :: rest)

end

/-- Error of `ToolFunction::call_json` (traits.rs lines 64-75): the three
failing program points of the erased invocation, each carrying the rendered
message observable through `Box<dyn Error + Send + Sync>`. -/
inductive InvokeError where
  | decode (msg : String)
  | handler (msg : String)
  | encode (msg : String)
deriving Repr, DecidableEq

/-- Error at the `execute_call` / `execute_calls` boundary (registry.rs):
the not-found path of the lookup plus the three invocation failures. -/
inductive ExecError where
  | notFound (fnName : String)
  | decode (msg : String)
  | handler (msg : String)
  | encode (msg : String)
deriving Repr, DecidableEq

/-- Injection of an invocation failure into the boundary error, modelling
the `?` propagation in `execute_call` (registry.rs line 129). -/
def InvokeError.toExecError : InvokeError → ExecError
  | .decode m => .decode m
  | .handler m => .handler m
  | .encode m => .encode m

/-- The kind of a boundary error (which of the four distinguished failure
classes of spec section 7 it belongs to). -/
inductive ErrorKind where
  | notFound
  | decode
  | handler
  | encode
deriving Repr, DecidableEq

/-- Classification of a boundary error by kind. -/
def ExecError.kind : ExecError → ErrorKind
  | .notFound _ => .notFound
  | .decode _ => .decode
  | .handler _ => .handler
  | .encode _ => .encode

/-- Model of the `ToolFunction` trait (traits.rs lines 38-76) for parameter
type `P`, output type `O` and error type `E`:
* `decodeParams` models `serde_json::from_value::<P>` (its error rendered
  to a message),
* `call` models the typed async tool body (an async function modelled by
  its eventual result),
* `encodeOutput` models `serde_json::to_value` on the output,
* `renderError` models the `Display` rendering of `E`, the only part of a
  domain error observable through `Box<dyn Error + Send + Sync>`,
* `schemaDoc` models `schemars::schema_for!(P)` serialized to a `Value`. -/
structure ToolFunction (P O E : Type) where
  name : String
  description : String
  schemaDoc : Json
  decodeParams : Json → Except String P
  call : P → Except E O
  encodeOutput : O → Except String Json
  renderError : E → String

/-- Model of the provided method `ToolFunction::call_json` (traits.rs lines
64-75): decode the JSON arguments, invoke the typed body, encode the typed
result; each step failure maps to its own error at its own program point. -/
def ToolFunction.call_json {P O E : Type} (f : ToolFunction P O E) (params : Json) :
    Except InvokeError Json :=
  match f.decodeParams params with
  | .error m => .error (.decode m)
  | .ok parsed =>
    match f.call parsed with
    | .error e => .error (.handler (f.renderError e))
    | .ok result =>
      match f.encodeOutput result with
      | .error m => .error (.encode m)
      | .ok v => .ok v

/-- Model of the type-erased `ToolHandler` trait object (traits.rs lines
79-84): only the four JSON-valued operations survive the erasure. -/
structure ToolHandler where
  name : String
  description : String
  schema : Json
  call_json : Json → Except InvokeError Json

/-- Model of the blanket `impl<T: ToolFunction> ToolHandler for T` plus the
`Box::new` in `register_function`: erase a typed tool to its handler. -/
def ToolFunction.erase {P O E : Type} (f : ToolFunction P O E) : ToolHandler :=
  { name := f.name
    description := f.description
    schema := f.schemaDoc
    call_json := f.call_json }

/-- Lookup in the association-list model of `HashMap` (`get` /
`contains_key`). -/
def mapLookup {α : Type} : List (String × α) → String → Option α
  | [], _ => none
  | (k, v) :: rest, key => if k = key then some v else mapLookup rest key

/-- Insert with HashMap semantics: replace the entry of an existing key,
otherwise add a new entry. -/
def mapInsert {α : Type} : List (String × α) → String → α → List (String × α)
  | [], key, val => [(key, val)]
  | (k, v) :: rest, key, val =>
      if k = key then (key, val) :: rest else (k, v) :: mapInsert rest key val

/-- Remove with HashMap semantics: drop the entry of the key if present. -/
def mapRemove {α : Type} : List (String × α) → String → List (String × α)
  | [], _ => []
  | (k, v) :: rest, key => if k = key then rest else (k, v) :: mapRemove rest key

/-- Model of `HashMap::contains_key`. -/
def mapContains {α : Type} (m : List (String × α)) (key : String) : Bool :=
  (mapLookup m key).isSome

/-- Model of `genai::chat::Tool` as built by `get_tools` (registry.rs lines
89-98): name, description and schema of one registered handler. -/
structure Tool where
  name : String
  description : String
  schema : Json

/-- Model of `genai::chat::ToolCall`: the call request with its opaque
caller-supplied `call_id`, the addressed `fn_name` and JSON arguments. -/
structure ToolCall where
  call_id : String
  fn_name : String
  fn_arguments : Json

/-- Model of `genai::chat::ToolResponse` as produced by
`ToolResponse::new(call_id, content)`: the correlated response whose
`content` is serialized JSON text. -/
structure ToolResponse where
  call_id : String
  content : String
deriving Repr, DecidableEq

/-- Model of `ToolRegistry` (registry.rs line 28): the name-keyed map of
erased handlers. -/
structure ToolRegistry where
  tools : List (String × ToolHandler)

/-- Model of `ToolRegistry::new`. -/
def ToolRegistry.new : ToolRegistry := ⟨[]⟩

/-- Model of `ToolRegistry::register_function` (registry.rs lines 51-58):
key the erased handler by `tool.name()`; `HashMap::insert` overwrites an
existing entry of the same name. -/
def ToolRegistry.register_function {P O E : Type} (r : ToolRegistry)
    (tool : ToolFunction P O E) : ToolRegistry :=
  ⟨mapInsert r.tools tool.name tool.erase⟩

/-- Model of `ToolRegistry::register_functions` (registry.rs lines 68-76):
register each tool of the vector in order. -/
def ToolRegistry.register_functions {P O E : Type} (r : ToolRegistry)
    (tools : List (ToolFunction P O E)) : ToolRegistry :=
  tools.foldl ToolRegistry.register_function r

/-- Model of `ToolRegistry::get_tools` (registry.rs lines 89-98): one
`Tool` per stored handler, built from the handler itself. -/
def ToolRegistry.get_tools (r : ToolRegistry) : List Tool :=
  r.tools.map (fun kv => ⟨kv.2.name, kv.2.description, kv.2.schema⟩)

/-- Model of `ToolRegistry::execute_call` (registry.rs lines 124-135): look
up `fn_name` (absence is the not-found error naming that function), run the
handler on the raw arguments, propagate its error, and on success wrap the
serialized result with the echoed `call_id`. -/
def ToolRegistry.execute_call (r : ToolRegistry) (tool_call : ToolCall) :
    Except ExecError ToolResponse :=
  match mapLookup r.tools tool_call.fn_name with
  | none => .error (.notFound tool_call.fn_name)
  | some handler =>
    match handler.call_json tool_call.fn_arguments with
    | .error e => .error e.toExecError
    | .ok result => .ok ⟨tool_call.call_id, Json.render result⟩

/-- Model of `ToolRegistry::execute_calls` (registry.rs lines 148-155):
`try_join_all` over `execute_call` of each request, modelled by its
result-level behaviour — responses in input order, fail-fast on error, no
partial response list. -/
def ToolRegistry.execute_calls (r : ToolRegistry) :
    List ToolCall → Except ExecError (List ToolResponse)
  | [] => .ok []
  | c :: cs =>
    match r.execute_call c with
    | .error e => .error e
    | .ok resp =>
      match r.execute_calls cs with
      | .error e => .error e
      | .ok rest => .ok (resp :: rest)

/-- Model of `ToolRegistry::tool_names` (registry.rs lines 158-160). -/
def ToolRegistry.tool_names (r : ToolRegistry) : List String :=
  r.tools.map (fun kv => kv.1)

/-- Model of `ToolRegistry::has_tool` (registry.rs lines 163-165). -/
def ToolRegistry.has_tool (r : ToolRegistry) (name : String) : Bool :=
  mapContains r.tools name

/-- Model of `ToolRegistry::len` (registry.rs lines 168-170). -/
def ToolRegistry.len (r : ToolRegistry) : Nat :=
  r.tools.length

/-- Model of `ToolRegistry::is_empty` (registry.rs lines 173-175). -/
def ToolRegistry.is_empty (r : ToolRegistry) : Bool :=
  r.tools.isEmpty

/-- Model of `ToolRegistry::remove_tool` (registry.rs lines 180-182):
`&mut self` mutation modelled by returning the removal flag together with
the post-state. -/
def ToolRegistry.remove_tool (r : ToolRegistry) (name : String) :
    Bool × ToolRegistry :=
  (mapContains r.tools name, ⟨mapRemove r.tools name⟩)

/-- Model of `ToolRegistry::clear` (registry.rs lines 185-187). -/
def ToolRegistry.clear (_ : ToolRegistry) : ToolRegistry := ⟨[]⟩

/-- Model of `ToolRegistry::merge` (registry.rs lines 194-197):
`HashMap::extend` inserts every entry of the consumed incoming registry,
overwriting entries sharing a name. -/
def ToolRegistry.merge (r : ToolRegistry) (other : ToolRegistry) : ToolRegistry :=
  ⟨other.tools.foldl (fun acc kv => mapInsert acc kv.1 kv.2) r.tools⟩

/-! ### Well-formedness invariant of the registry

`HashMap<String, _>` holds at most one entry per key, and every handler is
stored under its own `name()` (registry.rs line 55).  The association-list
model carries this as an explicit invariant, established by `new` and
preserved by every operation. -/

/-- Registry invariant: keys are pairwise distinct (HashMap) and each
handler is stored under its own name (registration keys by `tool.name()`). -/
def ToolRegistry.Wf (r : ToolRegistry) : Prop :=
  (r.tools.map (fun kv => kv.1)).Nodup ∧ ∀ kv ∈ r.tools, kv.2.name = kv.1

theorem mapLookup_insert_self {α : Type} (m : List (String × α)) (k : String) (v : α) :
    mapLookup (mapInsert m k v) k = some v := by
  induction m with
  | nil => simp [mapInsert, mapLookup]
  | cons kv rest ih =>
    obtain ⟨k1, v1⟩ := kv
    by_cases h : k1 = k
    · simp [mapInsert, h, mapLookup]
    · simp [mapInsert, h, mapLookup, ih]

theorem mapLookup_insert_ne {α : Type} (m : List (String × α)) (k k2 : String) (v : α)
    (h : k ≠ k2) : mapLookup (mapInsert m k v) k2 = mapLookup m k2 := by
  induction m with
  | nil => simp [mapInsert, mapLookup, h]
  | cons kv rest ih =>
    obtain ⟨k1, v1⟩ := kv
    by_cases h1 : k1 = k
    · simp [mapInsert, h1, mapLookup, h]
    · by_cases h2 : k1 = k2
      · simp [mapInsert, h1, mapLookup, h2, Ne.symm h]
      · simp [mapInsert, h1, mapLookup, h2, ih]

theorem mapLookup_eq_none_iff {α : Type} (m : List (String × α)) (k : String) :
    mapLookup m k = none ↔ k ∉ m.map (fun kv => kv.1) := by
  induction m with
  | nil => simp [mapLookup]
  | cons kv rest ih =>
    obtain ⟨k1, v1⟩ := kv
    by_cases h : k1 = k
    · simp [mapLookup, h]
    · simp [mapLookup, h, ih, Ne.symm h]

theorem mapContains_iff_mem_keys {α : Type} (m : List (String × α)) (k : String) :
    mapContains m k = true ↔ k ∈ m.map (fun kv => kv.1) := by
  constructor
  · intro hc
    by_contra hmem
    rw [← mapLookup_eq_none_iff] at hmem
    simp [mapContains, hmem] at hc
  · intro hmem
    cases h : mapLookup m k with
    | some v => simp [mapContains, h]
    | none =>
      rw [mapLookup_eq_none_iff] at h
      exact absurd hmem h

theorem keys_mapInsert {α : Type} (m : List (String × α)) (k : String) (v : α) :
    (mapInsert m k v).map (fun kv => kv.1) =
      if (mapLookup m k).isSome then m.map (fun kv => kv.1)
      else m.map (fun kv => kv.1) ++ [k] := by
  induction m with
  | nil => simp [mapInsert, mapLookup]
  | cons kv rest ih =>
    obtain ⟨k1, v1⟩ := kv
    by_cases h : k1 = k
    · simp [mapInsert, h, mapLookup]
    · simp only [mapInsert, h, if_false, mapLookup, List.map_cons, ih]
      by_cases hs : (mapLookup rest k).isSome
      · simp [hs, h]
      · simp [hs, h]

theorem nodup_keys_mapInsert {α : Type} (m : List (String × α)) (k : String) (v : α)
    (h : (m.map (fun kv => kv.1)).Nodup) :
    ((mapInsert m k v).map (fun kv => kv.1)).Nodup := by
  rw [keys_mapInsert]
  by_cases hs : (mapLookup m k).isSome
  · simpa [hs] using h
  · have hk : k ∉ m.map (fun kv => kv.1) := by
      rw [← mapLookup_eq_none_iff]
      exact Option.not_isSome_iff_eq_none.mp hs
    simp [hs, List.nodup_append, h, hk]

theorem mapRemove_sublist {α : Type} (m : List (String × α)) (k : String) :
    (mapRemove m k).Sublist m := by
  induction m with
  | nil => simp [mapRemove]
  | cons kv rest ih =>
    obtain ⟨k1, v1⟩ := kv
    by_cases h : k1 = k
    · simp only [mapRemove, h, if_true]
      exact (List.sublist_cons_self _ _)
    · simp only [mapRemove, h, if_false]
      exact ih.cons₂ _

theorem mapLookup_mapRemove_self {α : Type} (m : List (String × α)) (k : String)
    (h : (m.map (fun kv => kv.1)).Nodup) : mapLookup (mapRemove m k) k = none := by
  induction m with
  | nil => simp [mapRemove, mapLookup]
  | cons kv rest ih =>
    obtain ⟨k1, v1⟩ := kv
    simp only [List.map_cons, List.nodup_cons] at h
    by_cases hk : k1 = k
    · simp only [mapRemove, hk, if_true]
      rw [mapLookup_eq_none_iff]
      subst hk
      exact h.1
    · simp [mapRemove, hk, mapLookup, ih h.2]

theorem mapLookup_some_mem_keys {α : Type} {m : List (String × α)} {k : String} {v : α}
    (h : mapLookup m k = some v) : k ∈ m.map (fun kv => kv.1) := by
  by_contra hmem
  rw [← mapLookup_eq_none_iff] at hmem
  rw [hmem] at h
  exact Option.noConfusion h

theorem mapLookup_foldl_insert {α : Type} (l : List (String × α)) (acc : List (String × α))
    (k : String) (hnd : (l.map (fun kv => kv.1)).Nodup) :
    mapLookup (l.foldl (fun a kv => mapInsert a kv.1 kv.2) acc) k =
      match mapLookup l k with
      | some v => some v
      | none => mapLookup acc k := by
  induction l generalizing acc with
  | nil => simp [mapLookup]
  | cons kv rest ih =>
    obtain ⟨k1, v1⟩ := kv
    simp only [List.map_cons, List.nodup_cons] at hnd
    simp only [List.foldl_cons]
    rw [ih (mapInsert acc k1 v1) hnd.2]
    by_cases hk : k1 = k
    · subst hk
      have hnone : mapLookup rest k1 = none := by
        rw [mapLookup_eq_none_iff]
        exact hnd.1
      simp [mapLookup, hnone, mapLookup_insert_self]
    · cases hr : mapLookup rest k with
      | some v => simp [mapLookup, hk, hr]
      | none => simp [mapLookup, hk, hr, mapLookup_insert_ne acc k1 k v1 hk]

theorem wf_new : ToolRegistry.new.Wf := by
  constructor
  · simp [ToolRegistry.new]
  · intro kv hkv
    simp [ToolRegistry.new] at hkv

theorem wf_insert_entry (m : List (String × ToolHandler)) (k : String) (v : ToolHandler) :
    (∀ e ∈ m, e.2.name = e.1) → v.name = k →
    ∀ e ∈ mapInsert m k v, e.2.name = e.1 := by
  induction m with
  | nil =>
    intro _ hv e he
    simp [mapInsert] at he
    simp [he, hv]
  | cons kv1 rest ih =>
    obtain ⟨k1, v1⟩ := kv1
    intro hm hv e he
    by_cases hk : k1 = k
    · simp only [mapInsert, hk, if_true, List.mem_cons] at he
      rcases he with he | he
      · simp [he, hv]
      · exact hm _ (List.mem_cons_of_mem _ he)
    · simp only [mapInsert, hk, if_false, List.mem_cons] at he
      rcases he with he | he
      · exact hm _ (by simp [he])
      · exact ih (fun e1 he1 => hm _ (List.mem_cons_of_mem _ he1)) hv e he

theorem wf_register_function {P O E : Type} (r : ToolRegistry) (t : ToolFunction P O E)
    (h : r.Wf) : (r.register_function t).Wf := by
  constructor
  · exact nodup_keys_mapInsert r.tools t.name t.erase h.1
  · exact wf_insert_entry r.tools t.name t.erase h.2 rfl

theorem wf_register_functions {P O E : Type} (r : ToolRegistry)
    (ts : List (ToolFunction P O E)) (h : r.Wf) : (r.register_functions ts).Wf := by
  induction ts generalizing r with
  | nil => exact h
  | cons t rest ih =>
    exact ih (r.register_function t) (wf_register_function r t h)

theorem wf_remove_tool (r : ToolRegistry) (n : String) (h : r.Wf) :
    (r.remove_tool n).2.Wf := by
  constructor
  · exact ((mapRemove_sublist r.tools n).map (fun kv => kv.1)).nodup h.1
  · intro kv hkv
    exact h.2 kv ((mapRemove_sublist r.tools n).mem hkv)

theorem wf_merge (r other : ToolRegistry) (hr : r.Wf) (ho : other.Wf) :
    (r.merge other).Wf := by
  unfold ToolRegistry.merge
  have : ∀ (l : List (String × ToolHandler)) (acc : List (String × ToolHandler)),
      (∀ e ∈ l, e.2.name = e.1) →
      (acc.map (fun kv => kv.1)).Nodup → (∀ e ∈ acc, e.2.name = e.1) →
      ((l.foldl (fun a kv => mapInsert a kv.1 kv.2) acc).map (fun kv => kv.1)).Nodup ∧
        ∀ e ∈ l.foldl (fun a kv => mapInsert a kv.1 kv.2) acc, e.2.name = e.1 := by
    intro l
    induction l with
    | nil =>
      intro acc _ h1 h2
      exact ⟨h1, h2⟩
    | cons kv rest ih =>
      obtain ⟨k1, v1⟩ := kv
      intro acc hl h1 h2
      simp only [List.foldl_cons]
      exact ih (mapInsert acc k1 v1)
        (fun e he => hl _ (List.mem_cons_of_mem _ he))
        (nodup_keys_mapInsert acc k1 v1 h1)
        (wf_insert_entry acc k1 v1 h2 (hl (k1, v1) (List.mem_cons_self _ _)))
  exact this other.tools r.tools ho.2 hr.1 hr.2

/-! ### Execution helpers and concrete example tools -/

theorem execute_call_ok_parts {r : ToolRegistry} {c : ToolCall} {resp : ToolResponse}
    (h : r.execute_call c = .ok resp) :
    resp.call_id = c.call_id ∧
      ∃ hdl v, mapLookup r.tools c.fn_name = some hdl ∧
        hdl.call_json c.fn_arguments = .ok v ∧ resp.content = Json.render v := by
  unfold ToolRegistry.execute_call at h
  split at h
  · exact Except.noConfusion h
  · rename_i hdl hl
    split at h
    · exact Except.noConfusion h
    · rename_i v hc
      injection h with h
      subst h
      exact ⟨rfl, hdl, v, hl, hc, rfl⟩

/-- Concrete example tool: decodes a JSON number, fails on negative input,
increments otherwise. -/
def incrTool : ToolFunction Int Int String :=
  { name := "incr"
    description := "increment a number"
    schemaDoc := Json.obj []
    decodeParams := fun j =>
      match j with
      | .num n => .ok n
      | _ => .error "expected number"
    call := fun n => if n < 0 then .error "negative input" else .ok (n + 1)
    encodeOutput := fun n => .ok (Json.num n)
    renderError := fun s => s }

/-- Concrete example tool sharing the name of `incrTool` but adding two,
used to exercise replacement on re-registration. -/
def incrTool2 : ToolFunction Int Int String :=
  { name := "incr"
    description := "increment a number by two"
    schemaDoc := Json.obj []
    decodeParams := fun j =>
      match j with
      | .num n => .ok n
      | _ => .error "expected number"
    call := fun n => .ok (n + 2)
    encodeOutput := fun n => .ok (Json.num n)
    renderError := fun s => s }

/-- Concrete example tool whose result serialization fails, exercising the
encode error path. -/
def badEncodeTool : ToolFunction Int Int String :=
  { name := "badenc"
    description := "tool with unserializable output"
    schemaDoc := Json.obj []
    decodeParams := fun j =>
      match j with
      | .num n => .ok n
      | _ => .error "expected number"
    call := fun n => .ok n
    encodeOutput := fun _ => .error "unserializable"
    renderError := fun s => s }

/-- Concrete example tool named `x` returning the constant `n`, mirroring
the merge example of the spec. -/
def constTool (n : Int) : ToolFunction Unit Int String :=
  { name := "x"
    description := "constant"
    schemaDoc := Json.obj []
    decodeParams := fun _ => .ok ()
    call := fun _ => .ok n
    encodeOutput := fun m => .ok (Json.num m)
    renderError := fun s => s }

/-! ### Claim theorems -/

/-- C1: the four error kinds are distinguished at the `execute_call` /
`execute_calls` boundary: a missing tool name yields the not-found error, an
argument decode failure yields the decode error without the tool body ever
being consulted (the outcome is the same for every alternative body `g`), a
domain failure of the tool yields the handler error carrying only the
rendered message of the tool's error, and a result serialization failure
yields the encode error; each case surfaces to the immediate caller as a
failure value of the typed result, none is swallowed. -/
theorem execute_error_kinds (P O E : Type) (f : ToolFunction P O E)
    (r : ToolRegistry) (c : ToolCall) :
    (mapLookup r.tools c.fn_name = none →
        r.execute_call c = .error (.notFound c.fn_name)) ∧
    (mapLookup r.tools c.fn_name = some f.erase →
        (∀ m, f.decodeParams c.fn_arguments = .error m →
            r.execute_call c = .error (.decode m) ∧
            ∀ g : P → Except E O,
              ToolFunction.call_json { f with call := g } c.fn_arguments
                = .error (.decode m)) ∧
        (∀ p e, f.decodeParams c.fn_arguments = .ok p → f.call p = .error e →
            r.execute_call c = .error (.handler (f.renderError e))) ∧
        (∀ p o m, f.decodeParams c.fn_arguments = .ok p → f.call p = .ok o →
            f.encodeOutput o = .error m →
            r.execute_call c = .error (.encode m))) := by
  refine ⟨?_, ?_⟩
  · intro hl
    unfold ToolRegistry.execute_call
    rw [hl]
  · intro hl
    refine ⟨?_, ?_, ?_⟩
    · intro m hm
      constructor
      · unfold ToolRegistry.execute_call
        rw [hl]
        simp [ToolFunction.erase, ToolFunction.call_json, hm, InvokeError.toExecError]
      · intro g
        simp [ToolFunction.call_json, hm]
    · intro p e hp he
      unfold ToolRegistry.execute_call
      rw [hl]
      simp [ToolFunction.erase, ToolFunction.call_json, hp, he, InvokeError.toExecError]
    · intro p o m hp ho hm
      unfold ToolRegistry.execute_call
      rw [hl]
      simp [ToolFunction.erase, ToolFunction.call_json, hp, ho, hm, InvokeError.toExecError]

/-- Witness for C1: the four error kinds observed on concrete registries
and requests. -/
theorem execute_error_kinds_witness :
    (ToolRegistry.new.register_function incrTool).execute_call
        ⟨"c1", "nope", Json.num 1⟩ = .error (.notFound "nope") ∧
    (ToolRegistry.new.register_function incrTool).execute_call
        ⟨"c1", "incr", Json.str "x"⟩ = .error (.decode "expected number") ∧
    (ToolRegistry.new.register_function incrTool).execute_call
        ⟨"c1", "incr", Json.num (-1)⟩ = .error (.handler "negative input") ∧
    (ToolRegistry.new.register_function badEncodeTool).execute_call
        ⟨"c1", "badenc", Json.num 1⟩ = .error (.encode "unserializable") := by
  refine ⟨?_, ?_, ?_, ?_⟩
  · exact (execute_error_kinds Int Int String incrTool
      (ToolRegistry.new.register_function incrTool) ⟨"c1", "nope", Json.num 1⟩).1 rfl
  · exact (((execute_error_kinds Int Int String incrTool
      (ToolRegistry.new.register_function incrTool)
      ⟨"c1", "incr", Json.str "x"⟩).2 rfl).1 "expected number" rfl).1
  · exact ((execute_error_kinds Int Int String incrTool
      (ToolRegistry.new.register_function incrTool)
      ⟨"c1", "incr", Json.num (-1)⟩).2 rfl).2.1 (-1) "negative input" rfl rfl
  · exact ((execute_error_kinds Int Int String badEncodeTool
      (ToolRegistry.new.register_function badEncodeTool)
      ⟨"c1", "badenc", Json.num 1⟩).2 rfl).2.2 1 1 "unserializable" rfl rfl rfl

/-- C4: a successful `execute_call` returns a response whose `call_id`
equals the request's `call_id` and whose `content` is the serialized JSON
text of the value produced by the matched handler on the request's
arguments. -/
theorem execute_response_shape (r : ToolRegistry) (c : ToolCall)
    (resp : ToolResponse) (h : r.execute_call c = .ok resp) :
    resp.call_id = c.call_id ∧
      ∃ hdl v, mapLookup r.tools c.fn_name = some hdl ∧
        hdl.call_json c.fn_arguments = .ok v ∧ resp.content = Json.render v :=
  execute_call_ok_parts h

/-- Witness for C4: the shape of the concrete successful response of the
increment tool on the number 1. -/
theorem execute_response_shape_witness :
    (⟨"c1", "2"⟩ : ToolResponse).call_id = "c1" ∧
      ∃ hdl v,
        mapLookup (ToolRegistry.new.register_function incrTool).tools "incr" = some hdl ∧
        hdl.call_json (Json.num 1) = .ok v ∧
        (⟨"c1", "2"⟩ : ToolResponse).content = Json.render v :=
  execute_response_shape (ToolRegistry.new.register_function incrTool)
    ⟨"c1", "incr", Json.num 1⟩ ⟨"c1", "2"⟩ rfl

/-- C5: a request whose `fn_name` is not registered fails with the
not-found error naming that exact `fn_name`; with no matching handler in
the registry no tool can be invoked. -/
theorem execute_not_found (r : ToolRegistry) (c : ToolCall)
    (h : r.has_tool c.fn_name = false) :
    r.execute_call c = .error (.notFound c.fn_name) := by
  have hl : mapLookup r.tools c.fn_name = none := by
    cases hl : mapLookup r.tools c.fn_name with
    | none => rfl
    | some v => simp [ToolRegistry.has_tool, mapContains, hl] at h
  unfold ToolRegistry.execute_call
  rw [hl]

/-- Witness for C5: an unregistered name on a concrete registry. -/
theorem execute_not_found_witness :
    (ToolRegistry.new.register_function incrTool).has_tool "nope" = false ∧
    (ToolRegistry.new.register_function incrTool).execute_call
        ⟨"c1", "nope", Json.null⟩ = .error (.notFound "nope") :=
  ⟨rfl, execute_not_found (ToolRegistry.new.register_function incrTool)
    ⟨"c1", "nope", Json.null⟩ rfl⟩

/-- C9: `execute_call` is deterministic — in this embedding every tool body
is a pure function, so two executions of the same request against the same
registry that both succeed produce equal `content`. -/
theorem execute_deterministic (r : ToolRegistry) (c : ToolCall)
    (resp₁ resp₂ : ToolResponse) (h₁ : r.execute_call c = .ok resp₁)
    (h₂ : r.execute_call c = .ok resp₂) : resp₁.content = resp₂.content := by
  rw [h₁] at h₂
  injection h₂ with h₂
  rw [h₂]

/-- Witness for C9: two executions of the same concrete request. -/
theorem execute_deterministic_witness :
    (ToolRegistry.new.register_function incrTool).execute_call
        ⟨"a", "incr", Json.num 1⟩ = .ok ⟨"a", "2"⟩ ∧
    (⟨"a", "2"⟩ : ToolResponse).content = (⟨"a", "2"⟩ : ToolResponse).content :=
  ⟨rfl, execute_deterministic (ToolRegistry.new.register_function incrTool)
    ⟨"a", "incr", Json.num 1⟩ ⟨"a", "2"⟩ ⟨"a", "2"⟩ rfl rfl⟩

/-- C3: a successful `execute_calls` returns one response per request, in
the same respective order, each carrying the `call_id` of the request at
the same index. -/
theorem execute_calls_order (r : ToolRegistry) (cs : List ToolCall)
    (resps : List ToolResponse) (h : r.execute_calls cs = .ok resps) :
    resps.length = cs.length ∧
      resps.map (fun resp => resp.call_id) = cs.map (fun c => c.call_id) := by
  induction cs generalizing resps with
  | nil =>
    unfold ToolRegistry.execute_calls at h
    injection h with h
    subst h
    exact ⟨rfl, rfl⟩
  | cons c cs ih =>
    unfold ToolRegistry.execute_calls at h
    cases hc : r.execute_call c with
    | error e =>
      rw [hc] at h
      exact Except.noConfusion h
    | ok resp =>
      rw [hc] at h
      cases hrest : r.execute_calls cs with
      | error e =>
        rw [hrest] at h
        exact Except.noConfusion h
      | ok rest =>
        rw [hrest] at h
        injection h with h
        subst h
        obtain ⟨hlen, hids⟩ := ih rest hrest
        refine ⟨by simp [hlen], ?_⟩
        simp only [List.map_cons, hids]
        rw [(execute_call_ok_parts hc).1]

/-- Witness for C3: a concrete three-request batch. -/
theorem execute_calls_order_witness :
    ([(⟨"a", "2"⟩ : ToolResponse), ⟨"b", "3"⟩, ⟨"c", "4"⟩].length
        = [(⟨"a", "incr", Json.num 1⟩ : ToolCall), ⟨"b", "incr", Json.num 2⟩,
           ⟨"c", "incr", Json.num 3⟩].length) ∧
      ([(⟨"a", "2"⟩ : ToolResponse), ⟨"b", "3"⟩, ⟨"c", "4"⟩].map
          (fun resp => resp.call_id)
        = [(⟨"a", "incr", Json.num 1⟩ : ToolCall), ⟨"b", "incr", Json.num 2⟩,
           ⟨"c", "incr", Json.num 3⟩].map (fun c => c.call_id)) :=
  execute_calls_order (ToolRegistry.new.register_function incrTool)
    [⟨"a", "incr", Json.num 1⟩, ⟨"b", "incr", Json.num 2⟩, ⟨"c", "incr", Json.num 3⟩]
    [⟨"a", "2"⟩, ⟨"b", "3"⟩, ⟨"c", "4"⟩] rfl

/-- C2: `execute_calls` is fail-fast with no partial-success shape: if any
request of the batch fails under `execute_call` then the whole batch
resolves to a single error and no response list is produced; in particular
a batch in which exactly one request has undecodable arguments (all other
requests succeed individually) fails as a whole with that decode error. -/
theorem execute_calls_fail_fast (r : ToolRegistry) :
    (∀ cs : List ToolCall,
        (∃ c ∈ cs, ∃ e, r.execute_call c = .error e) →
        ∃ e, r.execute_calls cs = .error e) ∧
    (∀ (l₁ l₂ : List ToolCall) (bad : ToolCall) (m : String),
        (∀ c ∈ l₁, ∃ resp, r.execute_call c = .ok resp) →
        (∀ c ∈ l₂, ∃ resp, r.execute_call c = .ok resp) →
        r.execute_call bad = .error (.decode m) →
        r.execute_calls (l₁ ++ bad :: l₂) = .error (.decode m)) := by
  constructor
  · intro cs hex
    induction cs with
    | nil => simp at hex
    | cons c cs ih =>
      rcases hex with ⟨c1, hc1, e, he⟩
      rcases List.mem_cons.mp hc1 with hc1 | hc1
      · subst hc1
        refine ⟨e, ?_⟩
        unfold ToolRegistry.execute_calls
        rw [he]
      · obtain ⟨e1, he1⟩ := ih ⟨c1, hc1, e, he⟩
        cases hc : r.execute_call c with
        | error e2 =>
          refine ⟨e2, ?_⟩
          unfold ToolRegistry.execute_calls
          rw [hc]
        | ok resp =>
          refine ⟨e1, ?_⟩
          unfold ToolRegistry.execute_calls
          rw [hc, he1]
  · intro l₁ l₂ bad m h₁ h₂ hbad
    induction l₁ with
    | nil =>
      simp only [List.nil_append]
      unfold ToolRegistry.execute_calls
      rw [hbad]
    | cons a l₁ ih =>
      obtain ⟨resp, ha⟩ := h₁ a (List.mem_cons_self _ _)
      simp only [List.cons_append]
      unfold ToolRegistry.execute_calls
      rw [ha, ih (fun c hc => h₁ c (List.mem_cons_of_mem _ hc))]

/-- Witness for C2: a concrete three-request batch whose middle request has
undecodable arguments fails as a whole with the decode error. -/
theorem execute_calls_fail_fast_witness :
    (ToolRegistry.new.register_function incrTool).execute_calls
        [⟨"a", "incr", Json.num 1⟩, ⟨"b", "incr", Json.str "oops"⟩,
         ⟨"c", "incr", Json.num 3⟩] = .error (.decode "expected number") := by
  have h := (execute_calls_fail_fast (ToolRegistry.new.register_function incrTool)).2
    [⟨"a", "incr", Json.num 1⟩] [⟨"c", "incr", Json.num 3⟩]
    ⟨"b", "incr", Json.str "oops"⟩ "expected number"
    (by
      intro c hc
      simp only [List.mem_singleton] at hc
      subst hc
      exact ⟨⟨"a", "2"⟩, rfl⟩)
    (by
      intro c hc
      simp only [List.mem_singleton] at hc
      subst hc
      exact ⟨⟨"c", "4"⟩, rfl⟩)
    rfl
  exact h

theorem lookup_register_functions_no_match {P O E : Type} (r : ToolRegistry)
    (ts : List (ToolFunction P O E)) (n : String) (h : ∀ u ∈ ts, u.name ≠ n) :
    mapLookup (r.register_functions ts).tools n = mapLookup r.tools n := by
  induction ts generalizing r with
  | nil => rfl
  | cons t rest ih =>
    have hstep : (r.register_functions (t :: rest))
        = (r.register_function t).register_functions rest := rfl
    rw [hstep, ih (r.register_function t) (fun u hu => h u (List.mem_cons_of_mem _ hu))]
    exact mapLookup_insert_ne r.tools t.name n t.erase (h t (List.mem_cons_self _ _))

/-- C6: the registry keeps at most one handler per name — registration
preserves the well-formedness invariant; registering a second tool under an
existing name replaces the first handler (last-write-wins); registering a
list of tools applies them in order, so the last tool carrying a given name
wins; and on a well-formed registry `get_tools` yields exactly one
descriptor per distinct registered name. -/
theorem registry_unique_names :
    (∀ (P O E : Type) (r : ToolRegistry) (t : ToolFunction P O E),
        r.Wf → (r.register_function t).Wf) ∧
    (∀ (P₁ O₁ E₁ P₂ O₂ E₂ : Type) (r : ToolRegistry)
        (t₁ : ToolFunction P₁ O₁ E₁) (t₂ : ToolFunction P₂ O₂ E₂),
        t₂.name = t₁.name →
        mapLookup ((r.register_function t₁).register_function t₂).tools t₁.name
          = some t₂.erase) ∧
    (∀ (P O E : Type) (r : ToolRegistry) (l₁ l₂ : List (ToolFunction P O E))
        (t : ToolFunction P O E),
        (∀ u ∈ l₂, u.name ≠ t.name) →
        mapLookup (r.register_functions (l₁ ++ t :: l₂)).tools t.name
          = some t.erase) ∧
    (∀ r : ToolRegistry, r.Wf →
        (r.get_tools.map (fun tl => tl.name)).Nodup ∧
        ∀ n, n ∈ r.get_tools.map (fun tl => tl.name) ↔ r.has_tool n = true) := by
  refine ⟨fun P O E r t h => wf_register_function r t h, ?_, ?_, ?_⟩
  · intro P₁ O₁ E₁ P₂ O₂ E₂ r t₁ t₂ hname
    unfold ToolRegistry.register_function
    rw [← hname]
    exact mapLookup_insert_self _ t₂.name t₂.erase
  · intro P O E r l₁ l₂ t hl₂
    have hsplit : r.register_functions (l₁ ++ t :: l₂)
        = ((r.register_functions l₁).register_function t).register_functions l₂ := by
      unfold ToolRegistry.register_functions
      rw [List.foldl_append]
      rfl
    rw [hsplit, lookup_register_functions_no_match _ l₂ t.name hl₂]
    exact mapLookup_insert_self _ t.name t.erase
  · intro r hwf
    have hnames : r.get_tools.map (fun tl => tl.name) = r.tools.map (fun kv => kv.1) := by
      unfold ToolRegistry.get_tools
      rw [List.map_map]
      exact List.map_congr_left (fun kv hkv => hwf.2 kv hkv)
    constructor
    · rw [hnames]
      exact hwf.1
    · intro n
      rw [hnames]
      exact (mapContains_iff_mem_keys r.tools n).symm

/-- Witness for C6: replacing a concrete tool under its own name, and the
descriptor list of a concrete two-tool registry. -/
theorem registry_unique_names_witness :
    mapLookup ((ToolRegistry.new.register_function incrTool).register_function
        incrTool2).tools "incr" = some incrTool2.erase ∧
    mapLookup (ToolRegistry.new.register_functions
        ([incrTool] ++ incrTool2 :: [])).tools "incr" = some incrTool2.erase ∧
    (((ToolRegistry.new.register_function incrTool).register_function
        badEncodeTool).get_tools.map (fun tl => tl.name)).Nodup := by
  refine ⟨?_, ?_, ?_⟩
  · exact registry_unique_names.2.1 Int Int String Int Int String
      ToolRegistry.new incrTool incrTool2 rfl
  · exact registry_unique_names.2.2.1 Int Int String ToolRegistry.new
      [incrTool] [] incrTool2 (by intro u hu; simp at hu)
  · exact (registry_unique_names.2.2.2
      ((ToolRegistry.new.register_function incrTool).register_function badEncodeTool)
      (wf_register_function _ badEncodeTool
        (wf_register_function _ incrTool wf_new))).1

/-- C7: `merge` moves every entry of the incoming registry into the
receiver and on a name collision the incoming entry wins: every name bound
in the incoming registry is afterwards bound to the incoming handler, so
executing a request with that `fn_name` on the merged registry behaves as
on the incoming registry; names absent from the incoming registry keep the
receiver's binding. -/
theorem merge_incoming_wins (r other : ToolRegistry) (hwf : other.Wf) :
    (∀ n hdl, mapLookup other.tools n = some hdl →
        mapLookup (r.merge other).tools n = some hdl ∧
        ∀ c : ToolCall, c.fn_name = n →
          (r.merge other).execute_call c = other.execute_call c) ∧
    (∀ n, mapLookup other.tools n = none →
        mapLookup (r.merge other).tools n = mapLookup r.tools n) := by
  constructor
  · intro n hdl hl
    have hm : mapLookup (r.merge other).tools n = some hdl := by
      have h := mapLookup_foldl_insert other.tools r.tools n hwf.1
      simp only [hl] at h
      exact h
    refine ⟨hm, ?_⟩
    intro c hc
    unfold ToolRegistry.execute_call
    rw [hc, hm, hl]
  · intro n hl
    have h := mapLookup_foldl_insert other.tools r.tools n hwf.1
    simp only [hl] at h
    exact h

/-- Witness for C7: the merge example of the spec — registry A holds tool
`x` returning 1, registry B holds tool `x` returning 2; after the merge,
executing `x` yields B's result. -/
theorem merge_incoming_wins_witness :
    ((ToolRegistry.new.register_function (constTool 1)).merge
        (ToolRegistry.new.register_function (constTool 2))).execute_call
      ⟨"c1", "x", Json.null⟩
    = (ToolRegistry.new.register_function (constTool 2)).execute_call
        ⟨"c1", "x", Json.null⟩ ∧
    ((ToolRegistry.new.register_function (constTool 1)).merge
        (ToolRegistry.new.register_function (constTool 2))).execute_call
      ⟨"c1", "x", Json.null⟩ = .ok ⟨"c1", "2"⟩ := by
  have h := ((merge_incoming_wins
      (ToolRegistry.new.register_function (constTool 1))
      (ToolRegistry.new.register_function (constTool 2))
      (wf_register_function _ (constTool 2) wf_new)).1
    "x" (constTool 2).erase rfl).2 ⟨"c1", "x", Json.null⟩ rfl
  exact ⟨h, h.trans rfl⟩

/-- C8: after registering a tool under its name, `has_tool` is true;
`remove_tool` then reports true exactly once — after the removal `has_tool`
is false and a second `remove_tool` reports false. -/
theorem has_remove_lifecycle (P O E : Type) (r : ToolRegistry)
    (t : ToolFunction P O E) (hwf : r.Wf) :
    (r.register_function t).has_tool t.name = true ∧
    ((r.register_function t).remove_tool t.name).1 = true ∧
    (((r.register_function t).remove_tool t.name).2).has_tool t.name = false ∧
    ((((r.register_function t).remove_tool t.name).2).remove_tool t.name).1 = false := by
  have hins : mapLookup (r.register_function t).tools t.name = some t.erase :=
    mapLookup_insert_self r.tools t.name t.erase
  have hcon : mapContains (r.register_function t).tools t.name = true := by
    simp [mapContains, hins]
  have hrem : mapLookup (mapRemove (r.register_function t).tools t.name) t.name
      = none :=
    mapLookup_mapRemove_self (r.register_function t).tools t.name
      (nodup_keys_mapInsert r.tools t.name t.erase hwf.1)
  refine ⟨hcon, hcon, ?_, ?_⟩
  · simp [ToolRegistry.has_tool, ToolRegistry.remove_tool, mapContains, hrem]
  · simp [ToolRegistry.remove_tool, mapContains, hrem]

/-- Witness for C8: the register/has/remove/remove lifecycle on a concrete
registry and tool. -/
theorem has_remove_lifecycle_witness :
    (ToolRegistry.new.register_function incrTool).has_tool "incr" = true ∧
    ((ToolRegistry.new.register_function incrTool).remove_tool "incr").1 = true ∧
    (((ToolRegistry.new.register_function incrTool).remove_tool "incr").2).has_tool
        "incr" = false ∧
    ((((ToolRegistry.new.register_function incrTool).remove_tool "incr").2).remove_tool
        "incr").1 = false :=
  has_remove_lifecycle Int Int String ToolRegistry.new incrTool wf_new

/-- The public operations of `ToolRegistry`, used to state the frame
property.  Registration is represented by the erased entry it inserts
(`register_function` keys `tool.erase` by `tool.name`). -/
inductive RegistryOp where
  | executeCall (c : ToolCall)
  | executeBatch (cs : List ToolCall)
  | getTools
  | toolNames
  | hasTool (n : String)
  | lenQuery
  | isEmptyQuery
  | registerTool (k : String) (hdl : ToolHandler)
  | removeTool (n : String)
  | clearAll
  | mergeWith (other : ToolRegistry)

/-- Post-state of each public operation.  The methods taking `&self` in the
source (`execute_call`, `execute_calls`, `get_tools`, `tool_names`,
`has_tool`, `len`, `is_empty`) cannot modify the map — there is no interior
mutability in the source — so their post-state is the input state; the
`&mut self` methods produce the state of the corresponding model
function. -/
def RegistryOp.run : RegistryOp → ToolRegistry → ToolRegistry
  | .executeCall _, r => r
  | .executeBatch _, r => r
  | .getTools, r => r
  | .toolNames, r => r
  | .hasTool _, r => r
  | .lenQuery, r => r
  | .isEmptyQuery, r => r
  | .registerTool k hdl, r => ⟨mapInsert r.tools k hdl⟩
  | .removeTool n, r => (r.remove_tool n).2
  | .clearAll, r => r.clear
  | .mergeWith other, r => r.merge other

/-- The operations whose receiver is a shared borrow in the source: the
invocation and query operations. -/
def RegistryOp.readOnly : RegistryOp → Bool
  | .executeCall _ => true
  | .executeBatch _ => true
  | .getTools => true
  | .toolNames => true
  | .hasTool _ => true
  | .lenQuery => true
  | .isEmptyQuery => true
  | .registerTool _ _ => false
  | .removeTool _ => false
  | .clearAll => false
  | .mergeWith _ => false

/-- C10: the invocation and query operations never mutate the registry —
for every registry state, running any read-only operation (`execute_call`,
`execute_calls`, `get_tools`, `tool_names`, `has_tool`, `len`, `is_empty`)
leaves the name-to-handler mapping unchanged; in particular an execution
that resolves to an error leaves the registry in its prior state. -/
theorem readonly_ops_frame (op : RegistryOp) (r : ToolRegistry)
    (h : op.readOnly = true) : op.run r = r := by
  cases op with
  | executeCall c => rfl
  | executeBatch cs => rfl
  | getTools => rfl
  | toolNames => rfl
  | hasTool n => rfl
  | lenQuery => rfl
  | isEmptyQuery => rfl
  | registerTool k hdl => simp [RegistryOp.readOnly] at h
  | removeTool n => simp [RegistryOp.readOnly] at h
  | clearAll => simp [RegistryOp.readOnly] at h
  | mergeWith other => simp [RegistryOp.readOnly] at h

/-- Witness for C10: a failing execution on a concrete registry leaves the
registry unchanged. -/
theorem readonly_ops_frame_witness :
    (ToolRegistry.new.register_function incrTool).execute_call
        ⟨"c1", "incr", Json.str "bad"⟩ = .error (.decode "expected number") ∧
    (RegistryOp.executeCall ⟨"c1", "incr", Json.str "bad"⟩).run
        (ToolRegistry.new.register_function incrTool)
      = ToolRegistry.new.register_function incrTool :=
  ⟨rfl, readonly_ops_frame (RegistryOp.executeCall ⟨"c1", "incr", Json.str "bad"⟩)
    (ToolRegistry.new.register_function incrTool) rfl⟩
